import Mathlib

/-!
Verification of the signaling-server core (`src/main.py`).

The module-level mutable state of the server is the pair of dictionaries

  rooms: Dict[str, set[str]] = defaultdict(set)
  peer_meta: Dict[str, Dict[str, str]] = {}

and the Socket.IO event handlers (`join`, `leave`, `rename`, `list_peers`,
`signal`, `offer`, `offer_response`, `disconnect`) mutate that state and emit
outbound events.  We embed each handler as a pure function from a
`ServerState` (plus the sender sid and the inbound payload) to the updated
state together with the list of emitted events, following the Python source
line by line.  Python's dynamically-typed payload documents are modelled by
the `PyVal` inductive, with Python truthiness made explicit.
-/

namespace Signaling

/-- A Python value as it appears in the loosely-typed event payloads:
`None`, booleans, integers, strings, and string-keyed dicts. -/
inductive PyVal where
  | pynone : PyVal
  | pybool (b : Bool) : PyVal
  | pyint (n : Int) : PyVal
  | pystr (s : String) : PyVal
  | pydict (l : List (String × PyVal)) : PyVal
deriving Repr

mutual
/-- Boolean equality on `PyVal`, structural (the nested dict makes the
derived instance unavailable, so it is spelled out). -/
def PyVal.beq : PyVal → PyVal → Bool
  | .pynone, .pynone => true
  | .pybool a, .pybool b => a == b
  | .pyint a, .pyint b => a == b
  | .pystr a, .pystr b => a == b
  | .pydict a, .pydict b => PyVal.beqEntries a b
  | _, _ => false

/-- Boolean equality on dict entry lists, mutually with `PyVal.beq`. -/
def PyVal.beqEntries : List (String × PyVal) → List (String × PyVal) → Bool
  | [], [] => true
  | (k1, v1) :: r1, (k2, v2) :: r2 =>
    k1 == k2 && PyVal.beq v1 v2 && PyVal.beqEntries r1 r2
  | _, _ => false
end

mutual
/-- `PyVal.beq` is reflexive. -/
theorem PyVal.beq_refl : ∀ a : PyVal, PyVal.beq a a = true
  | .pynone => by simp [PyVal.beq]
  | .pybool b => by simp [PyVal.beq]
  | .pyint n => by simp [PyVal.beq]
  | .pystr s => by simp [PyVal.beq]
  | .pydict l => by simp [PyVal.beq, PyVal.beqEntries_refl l]

/-- `PyVal.beqEntries` is reflexive. -/
theorem PyVal.beqEntries_refl :
    ∀ l : List (String × PyVal), PyVal.beqEntries l l = true
  | [] => rfl
  | (k, v) :: r => by
    simp [PyVal.beqEntries, PyVal.beq_refl v, PyVal.beqEntries_refl r]
end

mutual
/-- `PyVal.beq` is sound for propositional equality. -/
theorem PyVal.eq_of_beq : ∀ a b : PyVal, PyVal.beq a b = true → a = b
  | .pynone, .pynone, _ => rfl
  | .pybool a, .pybool b, h => by simp [PyVal.beq] at h; simp [h]
  | .pyint a, .pyint b, h => by simp [PyVal.beq] at h; simp [h]
  | .pystr a, .pystr b, h => by simp [PyVal.beq] at h; simp [h]
  | .pydict a, .pydict b, h => by
    simp [PyVal.beq] at h
    simp [PyVal.eqEntries_of_beq a b h]
  | .pynone, .pybool _, h => by simp [PyVal.beq] at h
  | .pynone, .pyint _, h => by simp [PyVal.beq] at h
  | .pynone, .pystr _, h => by simp [PyVal.beq] at h
  | .pynone, .pydict _, h => by simp [PyVal.beq] at h
  | .pybool _, .pynone, h => by simp [PyVal.beq] at h
  | .pybool _, .pyint _, h => by simp [PyVal.beq] at h
  | .pybool _, .pystr _, h => by simp [PyVal.beq] at h
  | .pybool _, .pydict _, h => by simp [PyVal.beq] at h
  | .pyint _, .pynone, h => by simp [PyVal.beq] at h
  | .pyint _, .pybool _, h => by simp [PyVal.beq] at h
  | .pyint _, .pystr _, h => by simp [PyVal.beq] at h
  | .pyint _, .pydict _, h => by simp [PyVal.beq] at h
  | .pystr _, .pynone, h => by simp [PyVal.beq] at h
  | .pystr _, .pybool _, h => by simp [PyVal.beq] at h
  | .pystr _, .pyint _, h => by simp [PyVal.beq] at h
  | .pystr _, .pydict _, h => by simp [PyVal.beq] at h
  | .pydict _, .pynone, h => by simp [PyVal.beq] at h
  | .pydict _, .pybool _, h => by simp [PyVal.beq] at h
  | .pydict _, .pyint _, h => by simp [PyVal.beq] at h
  | .pydict _, .pystr _, h => by simp [PyVal.beq] at h

/-- `PyVal.beqEntries` is sound for propositional equality. -/
theorem PyVal.eqEntries_of_beq :
    ∀ a b : List (String × PyVal), PyVal.beqEntries a b = true → a = b
  | [], [], _ => rfl
  | (k1, v1) :: r1, (k2, v2) :: r2, h => by
    simp [PyVal.beqEntries] at h
    obtain ⟨⟨hk, hv⟩, hr⟩ := h
    simp [hk, PyVal.eq_of_beq v1 v2 hv, PyVal.eqEntries_of_beq r1 r2 hr]
  | [], (_, _) :: _, h => by simp [PyVal.beqEntries] at h
  | (_, _) :: _, [], h => by simp [PyVal.beqEntries] at h
end

instance : DecidableEq PyVal := fun a b =>
  decidable_of_iff (PyVal.beq a b = true)
    ⟨PyVal.eq_of_beq a b, fun e => e ▸ PyVal.beq_refl a⟩

/-- Python truthiness (`bool(v)`): `None`, `False`, `0`, `""` and `{}` are
falsy, everything else is truthy. -/
def PyVal.truthy : PyVal → Bool
  | .pynone => false
  | .pybool b => b
  | .pyint n => n != 0
  | .pystr s => s != ""
  | .pydict l => !l.isEmpty

/-- `v.get k` models Python's `dict.get(k)` (returning `None` when the key is
absent).  The handlers only ever call `.get` on a dict or on the empty dict
substituted by `(data or {})`, so for non-dict values we return `None` as
well, which coincides with `({}).get(k)`. -/
def PyVal.get (v : PyVal) (k : String) : PyVal :=
  match v with
  | .pydict l =>
    match l.lookup k with
    | some x => x
    | none => .pynone
  | _ => .pynone

mutual
/-- Python's `repr` of a value, used (through `str`) by the `rename` handler
when it stores `str(name)`. -/
def PyVal.pyRepr : PyVal → String
  | .pynone => "None"
  | .pybool true => "True"
  | .pybool false => "False"
  | .pyint n => toString n
  | .pystr s => "\x27" ++ s ++ "\x27"
  | .pydict l => "\x7b" ++ PyVal.pyReprEntries l ++ "\x7d"

/-- Renders the entries of a dict for `PyVal.pyRepr`. -/
def PyVal.pyReprEntries : List (String × PyVal) → String
  | [] => ""
  | [(k, v)] => "\x27" ++ k ++ "\x27: " ++ PyVal.pyRepr v
  | (k, v) :: rest =>
    "\x27" ++ k ++ "\x27: " ++ PyVal.pyRepr v ++ ", " ++ PyVal.pyReprEntries rest
end

/-- Python's `str(v)` conversion: the identity on strings, `repr` otherwise. -/
def PyVal.pyStr : PyVal → PyVal
  | .pystr s => .pystr s
  | v => .pystr v.pyRepr

/-- The per-peer registry metadata dict `{"name": name, "room": room}` stored
in `peer_meta` by `join` (and whose `name` field `rename` overwrites).  Both
keys are always present, exactly as in the source. -/
structure Meta where
  name : PyVal
  room : PyVal
deriving DecidableEq, Repr

/-- The server's mutable state: `rooms` (a `defaultdict(set)`, modelled as a
total function whose default is the empty member list; member lists are kept
duplicate-free by the set operations) and `peer_meta`. -/
structure ServerState where
  rooms : PyVal → List String
  peer_meta : String → Option Meta

/-- The state at process start: both dictionaries empty. -/
def initState : ServerState :=
  { rooms := fun _ => [], peer_meta := fun _ => none }

/-- Point update of the `rooms` dictionary. -/
def ServerState.setRoom (st : ServerState) (r : PyVal) (l : List String) :
    ServerState :=
  { st with rooms := fun x => if x = r then l else st.rooms x }

/-- Point update (or deletion) of the `peer_meta` dictionary. -/
def ServerState.setMeta (st : ServerState) (sid : String) (m : Option Meta) :
    ServerState :=
  { st with peer_meta := fun x => if x = sid then m else st.peer_meta x }

/-- `rooms[room].add(sid)`: set insertion, a no-op when already present. -/
def addMember (l : List String) (sid : String) : List String :=
  if sid ∈ l then l else l ++ [sid]

/-- `peer_meta.get(sid, {}).get("name", sid)`: the display name recorded for
`sid`, falling back to the sid itself when no metadata exists. -/
def resolveName (st : ServerState) (sid : String) : PyVal :=
  match st.peer_meta sid with
  | some m => m.name
  | none => .pystr sid

/-- One outbound `sio.emit` call, one constructor per emission site of the
source (event name, payload shape, and routing recorded structurally). -/
inductive Emit where
  | peerList (room : PyVal) (peers : List (String × PyVal)) : Emit
  | peerJoined (room : PyVal) (sid : String) (skip : Option String) : Emit
  | peerLeft (room : PyVal) (sid : String) : Emit
  | signalMsg (room : PyVal) (fromSid : String) (payload : PyVal) : Emit
  | offerMsg (target : PyVal) (fromSid : String) (name : PyVal)
      (payload : PyVal) : Emit
  | offerResponseMsg (target : PyVal) (fromSid : String) (name : PyVal)
      (accepted : Bool) (payload : PyVal) (offerPayload : PyVal) : Emit
deriving DecidableEq, Repr

/-- `broadcast_peer_list(room)`: reads `rooms.get(room, set())`, resolves each
member's name via `peer_meta.get(sid, {}).get("name", sid)`, and emits one
`peer-list` event to the room. -/
def broadcast_peer_list (st : ServerState) (room : PyVal) : Emit :=
  .peerList room ((st.rooms room).map (fun sid => (sid, resolveName st sid)))

/-- The `connect` handler: logs only, no state change, no emission. -/
def connect (st : ServerState) (_sid : String) : ServerState × List Emit :=
  (st, [])

/-- The `disconnect` handler: `peer_meta.pop(sid, None)`; when metadata
existed and recorded a truthy room, discard the sid from that room and emit
`peer-left` followed by the refreshed peer list. -/
def disconnect (st : ServerState) (sid : String) : ServerState × List Emit :=
  match st.peer_meta sid with
  | none => (st, [])
  | some info =>
    let st1 := st.setMeta sid none
    let room := info.room
    if room.truthy then
      let st2 := st1.setRoom room ((st1.rooms room).erase sid)
      (st2, [.peerLeft room sid, broadcast_peer_list st2 room])
    else
      (st1, [])

/-- The `join` handler: requires a truthy `room`; the display name is
`data.get("name") or sid`; adds the sid to the room's member set, overwrites
the registry entry, emits `peer-joined` (skipping the sender) and the
refreshed peer list. -/
def join (st : ServerState) (sid : String) (data : PyVal) :
    ServerState × List Emit :=
  let room := data.get "room"
  let nameRaw := data.get "name"
  let name := if nameRaw.truthy then nameRaw else .pystr sid
  if room.truthy then
    let st1 := st.setRoom room (addMember (st.rooms room) sid)
    let st2 := st1.setMeta sid (some { name := name, room := room })
    (st2, [.peerJoined room sid (some sid), broadcast_peer_list st2 room])
  else
    (st, [])

/-- The `leave` handler: requires a truthy `room`; discards the sid from the
room's member set, pops the whole `peer_meta` entry when its recorded room
equals the given room, and emits `peer-left` plus the refreshed peer list. -/
def leave (st : ServerState) (sid : String) (data : PyVal) :
    ServerState × List Emit :=
  let room := data.get "room"
  if room.truthy then
    let st1 := st.setRoom room ((st.rooms room).erase sid)
    let st2 :=
      match st1.peer_meta sid with
      | some m => if m.room = room then st1.setMeta sid none else st1
      | none => st1
    (st2, [.peerLeft room sid, broadcast_peer_list st2 room])
  else
    (st, [])

/-- The `rename` handler: requires a truthy `name` and an existing registry
entry; stores `str(name)` as the display name and, when the entry records a
truthy room, re-broadcasts that room's peer list. -/
def rename (st : ServerState) (sid : String) (data : PyVal) :
    ServerState × List Emit :=
  let nm := data.get "name"
  if nm.truthy then
    match st.peer_meta sid with
    | none => (st, [])
    | some info =>
      let st1 := st.setMeta sid (some { info with name := nm.pyStr })
      if info.room.truthy then
        (st1, [broadcast_peer_list st1 info.room])
      else
        (st1, [])
  else
    (st, [])

/-- The `list_peers` handler: requires a truthy `room`; no mutation, emits the
current peer list. -/
def list_peers (st : ServerState) (_sid : String) (data : PyVal) :
    ServerState × List Emit :=
  let room := data.get "room"
  if room.truthy then
    (st, [broadcast_peer_list st room])
  else
    (st, [])

/-- The `signal` handler: requires truthy `data` and a truthy `room`; no
mutation, relays `{from, payload}` to the room, skipping the sender. -/
def signal (st : ServerState) (sid : String) (data : PyVal) :
    ServerState × List Emit :=
  if data.truthy then
    let room := data.get "room"
    let payload := data.get "payload"
    if room.truthy then
      (st, [.signalMsg room sid payload])
    else
      (st, [])
  else
    (st, [])

/-- The `offer` handler: requires truthy `data`, truthy `room` and `target`,
and a `payload` that is not `None` (`payload is None` is an identity check);
no mutation, relays `{from, name, payload}` to the target sid only. -/
def offer (st : ServerState) (sid : String) (data : PyVal) :
    ServerState × List Emit :=
  if data.truthy then
    let room := data.get "room"
    let target := data.get "target"
    let payload := data.get "payload"
    if room.truthy && target.truthy && !(payload == .pynone) then
      (st, [.offerMsg target sid (resolveName st sid) payload])
    else
      (st, [])
  else
    (st, [])

/-- The `offer_response` handler: requires truthy `data`, truthy `room` and
`target`; `accepted` is coerced with `bool(...)`, `payload` and `offer` are
passed through; no mutation, relays to the target sid only. -/
def offer_response (st : ServerState) (sid : String) (data : PyVal) :
    ServerState × List Emit :=
  if data.truthy then
    let room := data.get "room"
    let target := data.get "target"
    let accepted := (data.get "accepted").truthy
    let payload := data.get "payload"
    let offerPayload := data.get "offer"
    if room.truthy && target.truthy then
      (st, [.offerResponseMsg target sid (resolveName st sid) accepted payload
        offerPayload])
    else
      (st, [])
  else
    (st, [])

/-- A join or leave event issued by a single peer, used to analyse the
membership evolution of the room index over event sequences. -/
inductive PeerEvent where
  | evJoin (data : PyVal) : PeerEvent
  | evLeave (data : PyVal) : PeerEvent
deriving Repr

/-- Processes a sequence of join/leave events issued by the peer `sid`,
threading the server state through the corresponding handlers. -/
def runSeq (sid : String) (st : ServerState) : List PeerEvent → ServerState
  | [] => st
  | .evJoin d :: rest => runSeq sid (join st sid d).1 rest
  | .evLeave d :: rest => runSeq sid (leave st sid d).1 rest

/-- The nature of the last event of the sequence whose payload names room
`r`: `some true` for a join, `some false` for a leave, `none` when no event
names `r`. -/
def lastOnRoom (r : PyVal) : List PeerEvent → Option Bool
  | [] => none
  | e :: rest =>
    match lastOnRoom r rest with
    | some b => some b
    | none =>
      match e with
      | .evJoin d => if d.get "room" = r then some true else none
      | .evLeave d => if d.get "room" = r then some false else none

/-- The registry-to-index invariant of the spec: every peer with registry
metadata is listed in the room index under its recorded room. -/
def RegIndexInv (st : ServerState) : Prop :=
  ∀ sid m, st.peer_meta sid = some m → sid ∈ st.rooms m.room

/-- Every member list of the room index is duplicate-free (the lists model
Python sets). -/
def RoomsNodup (st : ServerState) : Prop :=
  ∀ r, (st.rooms r).Nodup

example :
    (join initState "A" (.pydict [("room", .pystr "r1")])).1.rooms
      (.pystr "r1") = ["A"] := by decide

example :
    (runSeq "A" initState
      [.evJoin (.pydict [("room", .pystr "r1")]),
       .evJoin (.pydict [("room", .pystr "r2")])]).rooms (.pystr "r1")
      = ["A"] := by decide

example :
    (leave (join initState "A"
        (.pydict [("room", .pystr "r"), ("name", .pystr "Alice")])).1
      "A" (.pydict [("room", .pystr "r")])).1.peer_meta "A" = none := by decide

example :
    (join initState "A"
        (.pydict [("room", .pystr "r"), ("name", .pystr "Alice")])).1.peer_meta
      "A" = some { name := .pystr "Alice", room := .pystr "r" } := by decide

/-! Projection lemmas for the state updates. -/

theorem setRoom_rooms (st : ServerState) (r : PyVal) (l : List String)
    (x : PyVal) : (st.setRoom r l).rooms x = if x = r then l else st.rooms x :=
  rfl

theorem setRoom_meta (st : ServerState) (r : PyVal) (l : List String) :
    (st.setRoom r l).peer_meta = st.peer_meta :=
  rfl

theorem setMeta_meta (st : ServerState) (sid : String) (m : Option Meta)
    (x : String) :
    (st.setMeta sid m).peer_meta x = if x = sid then m else st.peer_meta x :=
  rfl

theorem setMeta_rooms (st : ServerState) (sid : String) (m : Option Meta) :
    (st.setMeta sid m).rooms = st.rooms :=
  rfl

/-! Lemmas about the set operations on member lists. -/

theorem mem_addMember_self (l : List String) (sid : String) :
    sid ∈ addMember l sid := by
  unfold addMember
  split
  · assumption
  · simp

theorem mem_addMember_of_mem {l : List String} {p : String} (sid : String)
    (h : p ∈ l) : p ∈ addMember l sid := by
  unfold addMember
  split
  · exact h
  · simp [h]

theorem mem_addMember_iff {l : List String} {p sid : String} :
    p ∈ addMember l sid ↔ p = sid ∨ p ∈ l := by
  unfold addMember
  split <;> rename_i hmem
  · constructor
    · exact fun h => Or.inr h
    · rintro (rfl | h) <;> [exact hmem; exact h]
  · simp [or_comm]

theorem addMember_nodup {l : List String} (sid : String) (h : l.Nodup) :
    (addMember l sid).Nodup := by
  unfold addMember
  split <;> rename_i hmem
  · exact h
  · simp [List.nodup_append, h, hmem]

/-! State-effect lemmas for the handlers. -/

theorem join_state_falsy (st : ServerState) (sid : String) (data : PyVal)
    (h : (data.get "room").truthy = false) : join st sid data = (st, []) := by
  simp [join, h]

theorem join_state_truthy (st : ServerState) (sid : String) (data : PyVal)
    (h : (data.get "room").truthy = true) :
    (join st sid data).1 =
      (st.setRoom (data.get "room")
          (addMember (st.rooms (data.get "room")) sid)).setMeta sid
        (some { name := if (data.get "name").truthy then data.get "name"
                        else .pystr sid,
                room := data.get "room" }) := by
  simp [join, h]

theorem leave_state_falsy (st : ServerState) (sid : String) (data : PyVal)
    (h : (data.get "room").truthy = false) : leave st sid data = (st, []) := by
  simp [leave, h]

theorem leave_state_truthy (st : ServerState) (sid : String) (data : PyVal)
    (h : (data.get "room").truthy = true) :
    (leave st sid data).1 =
      (match st.peer_meta sid with
       | some m =>
         if m.room = data.get "room" then
           (st.setRoom (data.get "room")
             ((st.rooms (data.get "room")).erase sid)).setMeta sid none
         else
           st.setRoom (data.get "room") ((st.rooms (data.get "room")).erase sid)
       | none =>
         st.setRoom (data.get "room") ((st.rooms (data.get "room")).erase sid)) := by
  simp only [leave, h, if_true]
  rfl

theorem list_peers_state_eq (st : ServerState) (sid : String) (data : PyVal) :
    (list_peers st sid data).1 = st := by
  simp only [list_peers]
  split <;> rfl

theorem signal_state_eq (st : ServerState) (sid : String) (data : PyVal) :
    (signal st sid data).1 = st := by
  simp only [signal]
  (repeat' split) <;> rfl

theorem offer_state_eq (st : ServerState) (sid : String) (data : PyVal) :
    (offer st sid data).1 = st := by
  simp only [offer]
  (repeat' split) <;> rfl

theorem offer_response_state_eq (st : ServerState) (sid : String)
    (data : PyVal) : (offer_response st sid data).1 = st := by
  simp only [offer_response]
  (repeat' split) <;> rfl

/-- C7: the offer and offer-response handlers are pure relays — for every
state and every input they leave the peer registry and the room index exactly
unchanged, only reading the registry and emitting to the transport. -/
theorem offer_handlers_pure_relay :
    ∀ (st : ServerState) (sid : String) (data : PyVal),
      (offer st sid data).1 = st ∧ (offer_response st sid data).1 = st :=
  fun st sid data => ⟨offer_state_eq st sid data,
    offer_response_state_eq st sid data⟩

/-- C5: disconnect is idempotent — for every state and every peer id, running
disconnect a second time leaves the state produced by the first run unchanged
and emits nothing. -/
theorem disconnect_idempotent :
    ∀ (st : ServerState) (sid : String),
      disconnect (disconnect st sid).1 sid
        = ((disconnect st sid).1, ([] : List Emit)) := by
  intro st sid
  have hm : (disconnect st sid).1.peer_meta sid = none := by
    cases h : st.peer_meta sid with
    | none => simp [disconnect, h]
    | some m =>
      simp only [disconnect, h]
      split <;> simp [ServerState.setRoom, ServerState.setMeta]
  generalize hgen : (disconnect st sid).1 = s1 at hm ⊢
  simp [disconnect, hm]

/-- Truthiness of None, spelled as a rewrite rule. -/
theorem truthy_pynone : PyVal.truthy .pynone = false := rfl

/-- Truthiness of a dict, spelled as a rewrite rule. -/
theorem truthy_pydict (l : List (String × PyVal)) :
    PyVal.truthy (.pydict l) = !l.isEmpty := rfl

/-- A key absent from a dict makes `.get` return `None`. -/
theorem get_of_lookup_none {l : List (String × PyVal)} {k : String}
    (h : l.lookup k = none) : (PyVal.pydict l).get k = .pynone := by
  simp [PyVal.get, h]

/-- `resolveName` reads the registry only. -/
theorem resolveName_congr {st st2 : ServerState} (sid : String)
    (h : st2.peer_meta = st.peer_meta) :
    resolveName st2 sid = resolveName st sid := by
  simp [resolveName, h]

/-- The field lookups of an offer payload built from explicit fields. -/
theorem offer_data_gets (room target payload : PyVal) :
    (PyVal.pydict [("room", room), ("target", target),
        ("payload", payload)]).get "room" = room ∧
    (PyVal.pydict [("room", room), ("target", target),
        ("payload", payload)]).get "target" = target ∧
    (PyVal.pydict [("room", room), ("target", target),
        ("payload", payload)]).get "payload" = payload := by
  refine ⟨?_, ?_, ?_⟩ <;> simp [PyVal.get, List.lookup]

/-- A falsy room field makes offer drop the event. -/
theorem offer_drop_falsy_room (st : ServerState) (sid : String)
    (room target payload : PyVal) (h : room.truthy = false) :
    offer st sid (.pydict [("room", room), ("target", target),
      ("payload", payload)]) = (st, []) := by
  obtain ⟨h1, h2, h3⟩ := offer_data_gets room target payload
  simp [offer, h1, h2, h3, h, truthy_pydict]

/-- A falsy target field makes offer drop the event. -/
theorem offer_drop_falsy_target (st : ServerState) (sid : String)
    (room target payload : PyVal) (h : target.truthy = false) :
    offer st sid (.pydict [("room", room), ("target", target),
      ("payload", payload)]) = (st, []) := by
  obtain ⟨h1, h2, h3⟩ := offer_data_gets room target payload
  simp [offer, h1, h2, h3, h, truthy_pydict]

/-- A well-formed offer emits exactly one point-to-point event to the
target. -/
theorem offer_emits (st : ServerState) (sid : String)
    (room target payload : PyVal) (hr : room.truthy = true)
    (ht : target.truthy = true) (hp : payload ≠ .pynone) :
    offer st sid (.pydict [("room", room), ("target", target),
        ("payload", payload)])
      = (st, [.offerMsg target sid (resolveName st sid) payload]) := by
  obtain ⟨h1, h2, h3⟩ := offer_data_gets room target payload
  simp [offer, h1, h2, h3, hr, ht, hp, truthy_pydict]

/-- C6: an inbound event whose payload dict is missing a required field is
dropped by every handler: the registry and the room index are untouched and
nothing is emitted (the handlers being total functions, no exception is
raised either). -/
theorem handlers_drop_on_missing_field :
    ∀ (st : ServerState) (sid : String) (l : List (String × PyVal)),
      (l.lookup "room" = none → join st sid (.pydict l) = (st, [])) ∧
      (l.lookup "room" = none → leave st sid (.pydict l) = (st, [])) ∧
      (l.lookup "name" = none → rename st sid (.pydict l) = (st, [])) ∧
      (l.lookup "room" = none → list_peers st sid (.pydict l) = (st, [])) ∧
      (l.lookup "room" = none → signal st sid (.pydict l) = (st, [])) ∧
      (l.lookup "room" = none ∨ l.lookup "target" = none
          ∨ l.lookup "payload" = none →
        offer st sid (.pydict l) = (st, [])) ∧
      (l.lookup "room" = none ∨ l.lookup "target" = none →
        offer_response st sid (.pydict l) = (st, [])) := by
  intro st sid l
  refine ⟨fun h => ?_, fun h => ?_, fun h => ?_, fun h => ?_, fun h => ?_,
    fun h => ?_, fun h => ?_⟩
  · simp [join, get_of_lookup_none h, truthy_pynone]
  · simp [leave, get_of_lookup_none h, truthy_pynone]
  · simp [rename, get_of_lookup_none h, truthy_pynone]
  · simp [list_peers, get_of_lookup_none h, truthy_pynone]
  · simp [signal, get_of_lookup_none h, truthy_pynone]
  · rcases h with h | h | h <;>
      simp [offer, get_of_lookup_none h, truthy_pynone]
  · rcases h with h | h <;>
      simp [offer_response, get_of_lookup_none h, truthy_pynone]

/-- Witness for C6 at the empty payload dict. -/
theorem handlers_drop_on_missing_field_witness :
    join initState "A" (.pydict []) = (initState, []) ∧
    leave initState "A" (.pydict []) = (initState, []) ∧
    rename initState "A" (.pydict []) = (initState, []) ∧
    list_peers initState "A" (.pydict []) = (initState, []) ∧
    signal initState "A" (.pydict []) = (initState, []) ∧
    offer initState "A" (.pydict []) = (initState, []) ∧
    offer_response initState "A" (.pydict []) = (initState, []) := by
  have h := handlers_drop_on_missing_field initState "A" []
  exact ⟨h.1 rfl, h.2.1 rfl, h.2.2.1 rfl, h.2.2.2.1 rfl, h.2.2.2.2.1 rfl,
    h.2.2.2.2.2.1 (Or.inl rfl), h.2.2.2.2.2.2 (Or.inl rfl)⟩

/-- C9: in join, a present-but-falsy name field behaves exactly like an
absent one — the registered display name becomes the peer's id — so a peer
with a non-empty sid can never end up with an empty-string display name via
join. -/
theorem join_falsy_name_defaults_to_sid :
    ∀ (st : ServerState) (sid : String) (data : PyVal),
      (data.get "room").truthy = true →
      (data.get "name").truthy = false →
      ((join st sid data).1.peer_meta sid
          = some { name := .pystr sid, room := data.get "room" }) ∧
      (sid ≠ "" →
        ((join st sid data).1.peer_meta sid).map Meta.name
          ≠ some (.pystr "")) := by
  intro st sid data hroom hname
  have h1 : (join st sid data).1.peer_meta sid
      = some { name := .pystr sid, room := data.get "room" } := by
    rw [join_state_truthy st sid data hroom]
    simp [setMeta_meta, hname]
  refine ⟨h1, fun hs => ?_⟩
  rw [h1]
  simp [hs]

/-- Witness for C9: a present empty-string name defaults to the sid. -/
theorem join_falsy_name_defaults_to_sid_witness :
    ((join initState "A" (.pydict [("room", .pystr "r"),
        ("name", .pystr "")])).1.peer_meta "A"
      = some { name := .pystr "A", room := .pystr "r" }) ∧
    ((join initState "A" (.pydict [("room", .pystr "r"),
        ("name", .pystr "")])).1.peer_meta "A").map Meta.name
      ≠ some (.pystr "") := by
  have h := join_falsy_name_defaults_to_sid initState "A"
    (.pydict [("room", .pystr "r"), ("name", .pystr "")])
    (by decide) (by decide)
  exact ⟨by rw [h.1]; rfl, h.2 (by decide)⟩

/-- C10: offer's field validation is asymmetric — room and target are
rejected whenever falsy, while payload is rejected only when it is exactly
None, so a falsy-but-present payload (such as the empty string, 0 or False)
is accepted and relayed to the target unchanged. -/
theorem offer_validation_asymmetry :
    ∀ (st : ServerState) (sid : String) (room target payload : PyVal),
      (room.truthy = false →
        offer st sid (.pydict [("room", room), ("target", target),
          ("payload", payload)]) = (st, [])) ∧
      (target.truthy = false →
        offer st sid (.pydict [("room", room), ("target", target),
          ("payload", payload)]) = (st, [])) ∧
      (room.truthy = true → target.truthy = true → payload ≠ .pynone →
        offer st sid (.pydict [("room", room), ("target", target),
            ("payload", payload)])
          = (st, [.offerMsg target sid (resolveName st sid) payload])) :=
  fun st sid room target payload =>
    ⟨offer_drop_falsy_room st sid room target payload,
     offer_drop_falsy_target st sid room target payload,
     offer_emits st sid room target payload⟩

/-- Witness for C10: the empty-string payload (falsy but not None) is
relayed, while a falsy room or target drops the event. -/
theorem offer_validation_asymmetry_witness :
    (offer initState "A" (.pydict [("room", .pystr ""),
        ("target", .pystr "B"), ("payload", .pystr "x")]) = (initState, [])) ∧
    (offer initState "A" (.pydict [("room", .pystr "r"),
        ("target", .pystr ""), ("payload", .pystr "x")]) = (initState, [])) ∧
    (offer initState "A" (.pydict [("room", .pystr "r"),
        ("target", .pystr "B"), ("payload", .pystr "")])
      = (initState,
          [.offerMsg (.pystr "B") "A" (resolveName initState "A")
            (.pystr "")])) :=
  ⟨(offer_validation_asymmetry initState "A" (.pystr "") (.pystr "B")
      (.pystr "x")).1 (by decide),
   (offer_validation_asymmetry initState "A" (.pystr "r") (.pystr "")
      (.pystr "x")).2.1 (by decide),
   (offer_validation_asymmetry initState "A" (.pystr "r") (.pystr "B")
      (.pystr "")).2.2 (by decide) (by decide) (by decide)⟩

/-- C8: a well-formed offer is delivered to the target connection only, and
the emission depends neither on the room field carried by the payload nor on
the room index (in particular not on any shared room membership): two states
agreeing on the registry, with arbitrary room indices and different room
fields, relay the identical single point-to-point event. -/
theorem offer_point_to_point :
    ∀ (st st2 : ServerState) (sid : String)
      (room room2 target payload : PyVal),
      st2.peer_meta = st.peer_meta →
      room.truthy = true → room2.truthy = true → target.truthy = true →
      payload ≠ .pynone →
      (offer st sid (.pydict [("room", room), ("target", target),
          ("payload", payload)])
        = (st, [.offerMsg target sid (resolveName st sid) payload])) ∧
      ((offer st2 sid (.pydict [("room", room2), ("target", target),
          ("payload", payload)])).2
        = (offer st sid (.pydict [("room", room), ("target", target),
          ("payload", payload)])).2) := by
  intro st st2 sid room room2 target payload hpm hr hr2 ht hp
  refine ⟨offer_emits st sid room target payload hr ht hp, ?_⟩
  rw [offer_emits st sid room target payload hr ht hp,
    offer_emits st2 sid room2 target payload hr2 ht hp,
    resolveName_congr sid hpm]

/-- Witness for C8: the sender is in no room at all, the target shares no
room with it, and the room fields differ, yet the relayed event is the
same. -/
theorem offer_point_to_point_witness :
    (offer initState "A" (.pydict [("room", .pystr "r1"),
        ("target", .pystr "B"), ("payload", .pystr "x")])
      = (initState,
          [.offerMsg (.pystr "B") "A" (resolveName initState "A")
            (.pystr "x")])) ∧
    ((offer (initState.setRoom (.pystr "other") ["B"]) "A"
        (.pydict [("room", .pystr "r2"), ("target", .pystr "B"),
          ("payload", .pystr "x")])).2
      = (offer initState "A" (.pydict [("room", .pystr "r1"),
          ("target", .pystr "B"), ("payload", .pystr "x")])).2) :=
  offer_point_to_point initState (initState.setRoom (.pystr "other") ["B"])
    "A" (.pystr "r1") (.pystr "r2") (.pystr "B") (.pystr "x") rfl
    (by decide) (by decide) (by decide) (by decide)

/-- C3 counterexample: in the reachable state where peer A joined r1 and then
r2 without leaving, broadcast_peer_list for r1 still lists A, but A's
registry room field is r2, not r1 — so the claim's clause that every listed
peer's registry room field equals the broadcast room is false. -/
theorem broadcast_room_field_counterexample :
    (broadcast_peer_list
        (join (join initState "A" (.pydict [("room", .pystr "r1")])).1
          "A" (.pydict [("room", .pystr "r2")])).1 (.pystr "r1")
      = .peerList (.pystr "r1") [("A", .pystr "A")]) ∧
    ((join (join initState "A" (.pydict [("room", .pystr "r1")])).1
          "A" (.pydict [("room", .pystr "r2")])).1.peer_meta "A"
      = some { name := .pystr "A", room := .pystr "r2" }) ∧
    (PyVal.pystr "r2" ≠ .pystr "r1") := by
  refine ⟨by decide, by decide, by decide⟩

/-- C3 (amended): broadcast_peer_list for room R emits one peer-list event to
R whose entry count equals the size of R's member set, with every entry's
name the member's registry display name, or its id when no metadata exists;
the listed peers' registry room fields need not equal R. -/
theorem broadcast_peer_list_shape :
    ∀ (st : ServerState) (room : PyVal),
      ∃ l, broadcast_peer_list st room = .peerList room l ∧
        l.length = (st.rooms room).length ∧
        ∀ p ∈ l, p.1 ∈ st.rooms room ∧
          p.2 = (match st.peer_meta p.1 with
                 | some m => m.name
                 | none => .pystr p.1) := by
  intro st room
  refine ⟨_, rfl, by simp [broadcast_peer_list], ?_⟩
  intro p hp
  simp only [broadcast_peer_list, List.mem_map] at hp
  obtain ⟨sid, hsid, rfl⟩ := hp
  exact ⟨hsid, rfl⟩

/-- Witness for C3 (amended) at a concrete state and room. -/
theorem broadcast_peer_list_shape_witness :
    ∃ l, broadcast_peer_list
        (join initState "A" (.pydict [("room", .pystr "r")])).1 (.pystr "r")
        = .peerList (.pystr "r") l ∧
      l.length = ((join initState "A"
        (.pydict [("room", .pystr "r")])).1.rooms (.pystr "r")).length ∧
      ∀ p ∈ l, p.1 ∈ (join initState "A"
          (.pydict [("room", .pystr "r")])).1.rooms (.pystr "r") ∧
        p.2 = (match (join initState "A"
            (.pydict [("room", .pystr "r")])).1.peer_meta p.1 with
           | some m => m.name
           | none => .pystr p.1) :=
  broadcast_peer_list_shape
    (join initState "A" (.pydict [("room", .pystr "r")])).1 (.pystr "r")

/-- C4 counterexample: after A joins room r with name Alice and then leaves
r, the entire registry entry is gone — the display name is not preserved, so
leave does not clear only the room field. -/
theorem leave_pops_entry_counterexample :
    ((join initState "A" (.pydict [("room", .pystr "r"),
        ("name", .pystr "Alice")])).1.peer_meta "A"
      = some { name := .pystr "Alice", room := .pystr "r" }) ∧
    ((leave (join initState "A" (.pydict [("room", .pystr "r"),
          ("name", .pystr "Alice")])).1
        "A" (.pydict [("room", .pystr "r")])).1.peer_meta "A" = none) := by
  refine ⟨by decide, by decide⟩

/-- Full frame/effect description of leave on a truthy room: the room's
member list loses the sid, other rooms and other peers' registry entries are
untouched, and the sid's registry entry is popped exactly when its recorded
room equals the given room. -/
theorem leave_effect_spec :
    ∀ (st : ServerState) (sid : String) (data room : PyVal),
      data.get "room" = room → room.truthy = true →
      ((leave st sid data).1.rooms room = (st.rooms room).erase sid) ∧
      (∀ r, r ≠ room → (leave st sid data).1.rooms r = st.rooms r) ∧
      (∀ p, p ≠ sid → (leave st sid data).1.peer_meta p = st.peer_meta p) ∧
      ((leave st sid data).1.peer_meta sid
        = (match st.peer_meta sid with
           | some m => if m.room = room then none else some m
           | none => none)) := by
  intro st sid data room hget hroom
  subst hget
  rw [leave_state_truthy st sid data hroom]
  cases hm : st.peer_meta sid with
  | none =>
    refine ⟨by simp [setRoom_rooms], fun r hr => by simp [setRoom_rooms, hr],
      fun p hp => by simp [setRoom_meta], by simp [setRoom_meta, hm]⟩
  | some m =>
    by_cases hmr : m.room = data.get "room"
    · simp only [hm, hmr, if_true]
      refine ⟨by simp [ServerState.setMeta, setRoom_rooms],
        fun r hr => by simp [ServerState.setMeta, setRoom_rooms, hr],
        fun p hp => by simp [setMeta_meta, setRoom_meta, hp],
        by simp [setMeta_meta, setRoom_meta]⟩
    · simp only [hm, hmr, if_false]
      refine ⟨by simp [setRoom_rooms], fun r hr => by simp [setRoom_rooms, hr],
        fun p hp => by simp [setRoom_meta], by simp [setRoom_meta, hm, hmr]⟩

/-- C4 (amended): for every peer and every truthy room argument, the leave
handler removes the peer from that room's member set in the room index
(leaving all other rooms and other peers' registry entries untouched), and
removes the peer's entire registry entry — display name included — exactly
when the registry's recorded room still equals the given room. -/
theorem leave_frame_effect :
    ∀ (st : ServerState) (sid : String) (data room : PyVal),
      data.get "room" = room → room.truthy = true →
      ((leave st sid data).1.rooms room = (st.rooms room).erase sid) ∧
      (∀ r, r ≠ room → (leave st sid data).1.rooms r = st.rooms r) ∧
      (∀ p, p ≠ sid → (leave st sid data).1.peer_meta p = st.peer_meta p) ∧
      ((leave st sid data).1.peer_meta sid
        = (match st.peer_meta sid with
           | some m => if m.room = room then none else some m
           | none => none)) :=
  leave_effect_spec

/-- Witness for C4 (amended): concrete leave after a join of the same
room. -/
theorem leave_effect_witness :
    ((leave (join initState "A" (.pydict [("room", .pystr "r"),
          ("name", .pystr "Alice")])).1 "A"
        (.pydict [("room", .pystr "r")])).1.rooms (.pystr "r")
      = ((join initState "A" (.pydict [("room", .pystr "r"),
          ("name", .pystr "Alice")])).1.rooms (.pystr "r")).erase "A") ∧
    ((leave (join initState "A" (.pydict [("room", .pystr "r"),
          ("name", .pystr "Alice")])).1 "A"
        (.pydict [("room", .pystr "r")])).1.peer_meta "A"
      = (match (join initState "A" (.pydict [("room", .pystr "r"),
            ("name", .pystr "Alice")])).1.peer_meta "A" with
         | some m => if m.room = .pystr "r" then none else some m
         | none => none)) := by
  have h := leave_frame_effect
    (join initState "A" (.pydict [("room", .pystr "r"),
      ("name", .pystr "Alice")])).1
    "A" (.pydict [("room", .pystr "r")]) (.pystr "r") (by decide) (by decide)
  exact ⟨h.1, h.2.2.2⟩

/-! Preservation of the registry-to-index invariant, handler by handler. -/

theorem regIndexInv_init : RegIndexInv initState := fun _ _ hp => by
  simp [initState] at hp

theorem regIndexInv_join (st : ServerState) (sid : String) (data : PyVal)
    (h : RegIndexInv st) : RegIndexInv (join st sid data).1 := by
  by_cases hr : (data.get "room").truthy = true
  · intro p m hp
    rw [join_state_truthy st sid data hr] at hp ⊢
    rw [setMeta_meta] at hp
    rw [setMeta_rooms, setRoom_rooms]
    by_cases hps : p = sid
    · subst hps
      rw [if_pos rfl] at hp
      obtain rfl := Option.some.inj hp
      rw [if_pos rfl]
      exact mem_addMember_self _ p
    · rw [if_neg hps] at hp
      have hmem := h p m hp
      by_cases hmr : m.room = data.get "room"
      · rw [if_pos hmr]
        exact mem_addMember_of_mem _ (hmr ▸ hmem)
      · rw [if_neg hmr]
        exact hmem
  · have hb : (data.get "room").truthy = false := by simpa using hr
    rw [join_state_falsy st sid data hb]
    exact h

theorem regIndexInv_leave (st : ServerState) (sid : String) (data : PyVal)
    (h : RegIndexInv st) : RegIndexInv (leave st sid data).1 := by
  by_cases hr : (data.get "room").truthy = true
  · obtain ⟨h1, h2, h3, h4⟩ := leave_effect_spec st sid data _ rfl hr
    intro p m hp
    by_cases hps : p = sid
    · subst hps
      rw [h4] at hp
      cases hm : st.peer_meta p with
      | none => rw [hm] at hp; cases hp
      | some m0 =>
        rw [hm] at hp
        change (if m0.room = data.get "room" then none else some m0)
          = some m at hp
        by_cases hm0 : m0.room = data.get "room"
        · rw [if_pos hm0] at hp; cases hp
        · rw [if_neg hm0] at hp
          obtain rfl := Option.some.inj hp
          rw [h2 m0.room hm0]
          exact h p m0 hm
    · have hpm : st.peer_meta p = some m := (h3 p hps).symm.trans hp
      have hmem := h p m hpm
      by_cases hmr : m.room = data.get "room"
      · rw [hmr, h1, List.mem_erase_of_ne hps]
        exact hmr ▸ hmem
      · rw [h2 m.room hmr]
        exact hmem
  · have hb : (data.get "room").truthy = false := by simpa using hr
    rw [leave_state_falsy st sid data hb]
    exact h

theorem regIndexInv_rename (st : ServerState) (sid : String) (data : PyVal)
    (h : RegIndexInv st) : RegIndexInv (rename st sid data).1 := by
  by_cases hn : (data.get "name").truthy = true
  · cases hm : st.peer_meta sid with
    | none =>
      simp only [rename, hn, if_true, hm]
      exact h
    | some info =>
      simp only [rename, hn, if_true, hm]
      have key : RegIndexInv
          (st.setMeta sid (some { info with name := (data.get "name").pyStr })) := by
        intro p m hp
        rw [setMeta_meta] at hp
        rw [setMeta_rooms]
        by_cases hps : p = sid
        · subst hps
          rw [if_pos rfl] at hp
          obtain rfl := Option.some.inj hp
          exact h p info hm
        · rw [if_neg hps] at hp
          exact h p m hp
      split <;> exact key
  · have hb : (data.get "name").truthy = false := by simpa using hn
    simp only [rename, hb, Bool.false_eq_true, if_false]
    exact h

theorem regIndexInv_disconnect (st : ServerState) (sid : String)
    (h : RegIndexInv st) : RegIndexInv (disconnect st sid).1 := by
  cases hm : st.peer_meta sid with
  | none =>
    simp only [disconnect, hm]
    exact h
  | some info =>
    simp only [disconnect, hm]
    by_cases hr : info.room.truthy = true
    · rw [if_pos hr]
      intro p m hp
      rw [setRoom_meta, setMeta_meta] at hp
      by_cases hps : p = sid
      · rw [if_pos hps] at hp; cases hp
      · rw [if_neg hps] at hp
        have hmem := h p m hp
        rw [setRoom_rooms]
        by_cases hmr : m.room = info.room
        · rw [if_pos hmr, setMeta_rooms, List.mem_erase_of_ne hps]
          exact hmr ▸ hmem
        · rw [if_neg hmr, setMeta_rooms]
          exact hmem
    · rw [if_neg hr]
      intro p m hp
      rw [setMeta_meta] at hp
      by_cases hps : p = sid
      · rw [if_pos hps] at hp; cases hp
      · rw [if_neg hps] at hp
        rw [setMeta_rooms]
        exact h p m hp

/-- C2: the registry-to-index invariant — if a peer's registry metadata
records room R then its id is in the room index member set for R — holds in
the initial state and is preserved by every handler (join, leave, rename,
disconnect, and the pure-relay handlers), hence it holds between events in
every reachable state. -/
theorem registry_index_invariant :
    RegIndexInv initState ∧
    (∀ (st : ServerState) (sid : String) (data : PyVal),
      RegIndexInv st → RegIndexInv (join st sid data).1) ∧
    (∀ (st : ServerState) (sid : String) (data : PyVal),
      RegIndexInv st → RegIndexInv (leave st sid data).1) ∧
    (∀ (st : ServerState) (sid : String) (data : PyVal),
      RegIndexInv st → RegIndexInv (rename st sid data).1) ∧
    (∀ (st : ServerState) (sid : String),
      RegIndexInv st → RegIndexInv (disconnect st sid).1) ∧
    (∀ (st : ServerState) (sid : String) (data : PyVal),
      RegIndexInv st → RegIndexInv (list_peers st sid data).1) ∧
    (∀ (st : ServerState) (sid : String) (data : PyVal),
      RegIndexInv st → RegIndexInv (signal st sid data).1) ∧
    (∀ (st : ServerState) (sid : String) (data : PyVal),
      RegIndexInv st → RegIndexInv (offer st sid data).1) ∧
    (∀ (st : ServerState) (sid : String) (data : PyVal),
      RegIndexInv st → RegIndexInv (offer_response st sid data).1) :=
  ⟨regIndexInv_init, regIndexInv_join, regIndexInv_leave, regIndexInv_rename,
   regIndexInv_disconnect,
   fun st sid data h => (list_peers_state_eq st sid data).symm ▸ h,
   fun st sid data h => (signal_state_eq st sid data).symm ▸ h,
   fun st sid data h => (offer_state_eq st sid data).symm ▸ h,
   fun st sid data h => (offer_response_state_eq st sid data).symm ▸ h⟩

/-- Witness for C2: the invariant after a concrete join from the initial
state. -/
theorem registry_index_invariant_witness :
    RegIndexInv (join initState "A" (.pydict [("room", .pystr "lobby")])).1 :=
  registry_index_invariant.2.1 initState "A"
    (.pydict [("room", .pystr "lobby")])
    (fun _ _ hp => by simp [initState] at hp)

/-! Duplicate-freedom of the member lists along join/leave sequences. -/

theorem roomsNodup_join (st : ServerState) (sid : String) (data : PyVal)
    (h : RoomsNodup st) : RoomsNodup (join st sid data).1 := by
  by_cases hr : (data.get "room").truthy = true
  · intro r
    rw [join_state_truthy st sid data hr, setMeta_rooms, setRoom_rooms]
    by_cases hrr : r = data.get "room"
    · rw [if_pos hrr]
      exact addMember_nodup sid (h _)
    · rw [if_neg hrr]
      exact h r
  · rw [join_state_falsy st sid data (by simpa using hr)]
    exact h

theorem roomsNodup_leave (st : ServerState) (sid : String) (data : PyVal)
    (h : RoomsNodup st) : RoomsNodup (leave st sid data).1 := by
  by_cases hr : (data.get "room").truthy = true
  · obtain ⟨h1, h2, _, _⟩ := leave_effect_spec st sid data _ rfl hr
    intro r
    by_cases hrr : r = data.get "room"
    · rw [hrr, h1]
      exact (h _).erase sid
    · rw [h2 r hrr]
      exact h r
  · rw [leave_state_falsy st sid data (by simpa using hr)]
    exact h

theorem roomsNodup_runSeq (sid : String) :
    ∀ (seq : List PeerEvent) (st : ServerState), RoomsNodup st →
      RoomsNodup (runSeq sid st seq)
  | [], _, h => h
  | .evJoin d :: rest, st, h =>
    roomsNodup_runSeq sid rest (join st sid d).1 (roomsNodup_join st sid d h)
  | .evLeave d :: rest, st, h =>
    roomsNodup_runSeq sid rest (leave st sid d).1 (roomsNodup_leave st sid d h)

/-! Behaviour of `lastOnRoom` on a cons cell. -/

theorem lastOnRoom_cons_of_some {r : PyVal} {rest : List PeerEvent} {b : Bool}
    (e : PeerEvent) (h : lastOnRoom r rest = some b) :
    lastOnRoom r (e :: rest) = some b := by
  simp [lastOnRoom, h]

theorem lastOnRoom_cons_of_none {r : PyVal} {rest : List PeerEvent}
    (e : PeerEvent) (h : lastOnRoom r rest = none) :
    lastOnRoom r (e :: rest)
      = (match e with
         | .evJoin d => if d.get "room" = r then some true else none
         | .evLeave d => if d.get "room" = r then some false else none) := by
  simp [lastOnRoom, h]

/-- Per-room membership of the issuing peer after a join/leave sequence:
the peer is in room `r` exactly when the last event naming `r` was a join,
and when no event names `r` the membership is the starting one. -/
theorem runSeq_mem_iff (sid : String) (r : PyVal) (hr : r.truthy = true) :
    ∀ (seq : List PeerEvent) (st : ServerState), RoomsNodup st →
      (sid ∈ (runSeq sid st seq).rooms r ↔
        (match lastOnRoom r seq with
         | some b => b = true
         | none => sid ∈ st.rooms r)) := by
  intro seq
  induction seq with
  | nil =>
    intro st _
    simp [runSeq, lastOnRoom]
  | cons e rest ih =>
    intro st hnd
    cases e with
    | evJoin d =>
      have hstep : runSeq sid st (.evJoin d :: rest)
          = runSeq sid (join st sid d).1 rest := rfl
      rw [hstep, ih (join st sid d).1 (roomsNodup_join st sid d hnd)]
      cases hlast : lastOnRoom r rest with
      | some b =>
        rw [lastOnRoom_cons_of_some (.evJoin d) hlast]
      | none =>
        rw [lastOnRoom_cons_of_none (.evJoin d) hlast]
        by_cases hd : d.get "room" = r
        · have hdr : (d.get "room").truthy = true := by rw [hd]; exact hr
          rw [join_state_truthy st sid d hdr, setMeta_rooms, setRoom_rooms,
            if_pos hd.symm]
          simp [hd, mem_addMember_self]
        · have hne : r ≠ d.get "room" := fun e => hd e.symm
          by_cases hdr : (d.get "room").truthy = true
          · rw [join_state_truthy st sid d hdr, setMeta_rooms, setRoom_rooms,
              if_neg hne]
            simp [hd]
          · rw [join_state_falsy st sid d (by simpa using hdr)]
            simp [hd]
    | evLeave d =>
      have hstep : runSeq sid st (.evLeave d :: rest)
          = runSeq sid (leave st sid d).1 rest := rfl
      rw [hstep, ih (leave st sid d).1 (roomsNodup_leave st sid d hnd)]
      cases hlast : lastOnRoom r rest with
      | some b =>
        rw [lastOnRoom_cons_of_some (.evLeave d) hlast]
      | none =>
        rw [lastOnRoom_cons_of_none (.evLeave d) hlast]
        by_cases hd : d.get "room" = r
        · have hdr : (d.get "room").truthy = true := by rw [hd]; exact hr
          obtain ⟨h1, _, _, _⟩ := leave_effect_spec st sid d _ rfl hdr
          rw [← hd, h1]
          simp [hd, (hnd r).mem_erase_iff]
        · have hne : r ≠ d.get "room" := fun e => hd e.symm
          by_cases hdr : (d.get "room").truthy = true
          · obtain ⟨_, h2, _, _⟩ := leave_effect_spec st sid d _ rfl hdr
            rw [h2 r hne]
            simp [hd]
          · rw [leave_state_falsy st sid d (by simpa using hdr)]
            simp [hd]

/-- C1 counterexample: a peer that joins r1 and then r2 without leaving is a
member of two distinct rooms at once, so after this sequence the peer is not
a member of at most one room. -/
theorem join_join_two_rooms_counterexample :
    ("A" ∈ (runSeq "A" initState
        [.evJoin (.pydict [("room", .pystr "r1")]),
         .evJoin (.pydict [("room", .pystr "r2")])]).rooms (.pystr "r1")) ∧
    ("A" ∈ (runSeq "A" initState
        [.evJoin (.pydict [("room", .pystr "r1")]),
         .evJoin (.pydict [("room", .pystr "r2")])]).rooms (.pystr "r2")) ∧
    (PyVal.pystr "r1" ≠ .pystr "r2") := by
  refine ⟨by decide, by decide, by decide⟩

/-- C1 (amended): starting from the empty state, after any sequence of
join/leave events by a single peer, membership is per room — for every truthy
room value R the peer is in R's member list iff the last event of the
sequence naming R is a join — and every member list is duplicate-free.  In
particular the peer stays in every room it joined and did not subsequently
leave, which can be more than one room. -/
theorem join_leave_membership :
    ∀ (sid : String) (r : PyVal) (seq : List PeerEvent),
      r.truthy = true →
      ((sid ∈ (runSeq sid initState seq).rooms r ↔
          lastOnRoom r seq = some true) ∧
        ((runSeq sid initState seq).rooms r).Nodup) := by
  intro sid r seq hr
  constructor
  · rw [runSeq_mem_iff sid r hr seq initState (fun _ => List.nodup_nil)]
    cases h : lastOnRoom r seq with
    | none => simp [initState]
    | some b => cases b <;> simp
  · exact roomsNodup_runSeq sid seq initState (fun _ => List.nodup_nil) r

/-- Witness for C1 (amended) at a concrete join-then-leave sequence. -/
theorem join_leave_membership_witness :
    (("A" ∈ (runSeq "A" initState
        [.evJoin (.pydict [("room", .pystr "lobby")]),
         .evLeave (.pydict [("room", .pystr "lobby")])]).rooms
          (.pystr "lobby") ↔
      lastOnRoom (.pystr "lobby")
        [.evJoin (.pydict [("room", .pystr "lobby")]),
         .evLeave (.pydict [("room", .pystr "lobby")])] = some true) ∧
    ((runSeq "A" initState
        [.evJoin (.pydict [("room", .pystr "lobby")]),
         .evLeave (.pydict [("room", .pystr "lobby")])]).rooms
          (.pystr "lobby")).Nodup) :=
  join_leave_membership "A" (.pystr "lobby")
    [.evJoin (.pydict [("room", .pystr "lobby")]),
     .evLeave (.pydict [("room", .pystr "lobby")])] (by decide)

end Signaling
